import Mathlib

/-!
Verification of the StreamIt distributed commit log core against its
specification.  The C++ sources are shallowly embedded: machine integers
become `Nat`/`Int` with explicit truncation where the code truncates, file
contents become `List Nat` (one `Nat` per byte), fallible operations return
an explicit result type, and each stateful component becomes a record of its
in-memory fields together with pure state-passing functions that mirror the
member functions line by line.
-/

namespace StreamIt

/-! ## Byte-level primitives (little-endian integer codecs)

The C++ code serializes integers by `memcpy` of their in-memory
representation; the target is little-endian, so an `intN_t`/`uintN_t` value
becomes its `N/8` bytes, least significant first. -/

/-- The four little-endian bytes of a `uint32_t` holding `n % 2^32`. -/
def u32le (n : Nat) : List Nat :=
  [n % 256, n / 256 % 256, n / 65536 % 256, n / 16777216 % 256]

/-- The eight little-endian bytes of a `uint64_t` holding `n % 2^64`. -/
def u64le (n : Nat) : List Nat :=
  [n % 256, n / 256 % 256, n / 65536 % 256, n / 16777216 % 256,
   n / 4294967296 % 256, n / 1099511627776 % 256,
   n / 281474976710656 % 256, n / 72057594037927936 % 256]

/-- Bytes of an `int32_t` (two's complement, little-endian). -/
def i32le (x : Int) : List Nat := u32le ((x % 4294967296).toNat)

/-- Bytes of an `int64_t` (two's complement, little-endian). -/
def i64le (x : Int) : List Nat := u64le ((x % 18446744073709551616).toNat)

/-- Byte of `l` at index `i`; reads past the end yield 0 (never reached on
the in-bounds accesses the code performs). -/
def byteAt (l : List Nat) (i : Nat) : Nat := l.getD i 0

/-- Read a `uint32_t` stored little-endian at position `p`. -/
def readU32 (l : List Nat) (p : Nat) : Nat :=
  byteAt l p + 256 * byteAt l (p + 1) + 65536 * byteAt l (p + 2) +
    16777216 * byteAt l (p + 3)

/-- Read a `uint64_t` stored little-endian at position `p`. -/
def readU64 (l : List Nat) (p : Nat) : Nat :=
  byteAt l p + 256 * byteAt l (p + 1) + 65536 * byteAt l (p + 2) +
    16777216 * byteAt l (p + 3) + 4294967296 * byteAt l (p + 4) +
    1099511627776 * byteAt l (p + 5) + 281474976710656 * byteAt l (p + 6) +
    72057594037927936 * byteAt l (p + 7)

/-- Reinterpret a `uint32_t` value as `int32_t` (two's complement). -/
def toI32 (n : Nat) : Int := if n < 2147483648 then (n : Int) else (n : Int) - 4294967296

/-- Reinterpret a `uint64_t` value as `int64_t` (two's complement). -/
def toI64 (n : Nat) : Int :=
  if n < 9223372036854775808 then (n : Int) else (n : Int) - 18446744073709551616

/-- Read an `int32_t` stored little-endian at position `p`. -/
def readI32 (l : List Nat) (p : Nat) : Int := toI32 (readU32 l p)

/-- Read an `int64_t` stored little-endian at position `p`. -/
def readI64 (l : List Nat) (p : Nat) : Int := toI64 (readU64 l p)

/-- `size_t + intN_t` as the C++ usual arithmetic conversions compute it: the
signed operand is converted to `size_t` (mod `2^64`) and the sum wraps. -/
def sizeTAdd (a : Nat) (x : Int) : Nat :=
  (((a : Int) + x) % 18446744073709551616).toNat

/-! ## CRC32 (`src/common/crc32`, reflected polynomial 0xEDB88320) -/

/-- One bit-step of the CRC32 table generator
(`crc = crc & 1 ? (crc >> 1) ^ 0xEDB88320 : crc >> 1`). -/
def crc32Step (crc : Nat) : Nat :=
  if crc % 2 = 1 then (crc / 2) ^^^ 0xEDB88320 else crc / 2

/-- `kCrcTable[i]`: eight generator steps applied to `i`
(`InitializeTable` in the source). -/
def crcTableEntry (i : Nat) : Nat := crc32Step^[8] i

/-- One byte of `Crc32::Compute`:
`crc = crc_table[(crc ^ byte) & 0xFF] ^ (crc >> 8)`. -/
def crc32Update (crc b : Nat) : Nat :=
  crcTableEntry ((crc ^^^ b) % 256) ^^^ (crc / 256)

/-- `Crc32::Compute`: fold the table update over the data starting from
`0xFFFFFFFF`, then invert. -/
def crc32Compute (data : List Nat) : Nat :=
  (data.foldl crc32Update 0xFFFFFFFF) ^^^ 0xFFFFFFFF

/-! ## Record and RecordBatch codec (`src/storage/record.cc`) -/

/-- `streamit::storage::Record`: `(key, value, timestamp_ms)`.  The byte
strings are lists of byte values. -/
structure Record where
  key : List Nat
  value : List Nat
  timestamp_ms : Int
deriving DecidableEq

/-- `Record::SerializedSize`. -/
def Record.serializedSize (r : Record) : Nat :=
  4 + r.key.length + 4 + r.value.length + 8

/-- `Record::Serialize`: `i32 key_len | key | i32 value_len | value | i64 ts`.
The length fields are `static_cast<int32_t>(size())`, i.e. the size mod
`2^32` as bytes. -/
def Record.serialize (r : Record) : List Nat :=
  i32le r.key.length ++ r.key ++ i32le r.value.length ++ r.value ++
    i64le r.timestamp_ms

/-- `Record::Deserialize`.  Bounds checks that mix `size_t` and `int32_t`
use `sizeTAdd`, mirroring the conversion the C++ comparison performs. -/
def Record.deserialize (data : List Nat) : Except String Record :=
  if data.length < 4 then .error "Invalid record data: too short" else
  let key_len := readI32 data 0
  if data.length < sizeTAdd 4 key_len then
    .error "Invalid record data: key length exceeds data" else
  let key := (data.drop 4).take key_len.toNat
  let off2 := sizeTAdd 4 key_len
  if data.length < off2 + 4 then
    .error "Invalid record data: missing value length" else
  let value_len := readI32 data off2
  if data.length < sizeTAdd (off2 + 4) value_len then
    .error "Invalid record data: value length exceeds data" else
  let value := (data.drop (off2 + 4)).take value_len.toNat
  let off4 := sizeTAdd (off2 + 4) value_len
  if data.length < off4 + 8 then
    .error "Invalid record data: missing timestamp" else
  .ok ⟨key, value, readI64 data off4⟩

/-- `streamit::storage::RecordBatch`. -/
structure RecordBatch where
  base_offset : Int
  records : List Record
  timestamp_ms : Int
  crc32 : Nat
deriving DecidableEq

/-- The serialized batch body without the trailing CRC field, exactly the
bytes `ComputeCrc32`/`VerifyCrc32` hash:
`i64 base_offset | i64 timestamp_ms | i32 record_count | records`. -/
def RecordBatch.body (b : RecordBatch) : List Nat :=
  i64le b.base_offset ++ i64le b.timestamp_ms ++ i32le b.records.length ++
    (b.records.map Record.serialize).flatten

/-- `RecordBatch::VerifyCrc32`. -/
def RecordBatch.verifyCrc32 (b : RecordBatch) : Bool :=
  crc32Compute b.body == b.crc32

/-- The `RecordBatch(base_offset, records, timestamp_ms)` constructor, which
runs `ComputeCrc32` on the fresh batch. -/
def RecordBatch.build (base : Int) (records : List Record) (ts : Int) :
    RecordBatch :=
  { base_offset := base, records := records, timestamp_ms := ts,
    crc32 := crc32Compute (RecordBatch.body
      ⟨base, records, ts, 0⟩) }

/-- `RecordBatch::SerializedSize`. -/
def RecordBatch.serializedSize (b : RecordBatch) : Nat :=
  8 + 8 + 4 + 4 + (b.records.map Record.serializedSize).sum

/-- `RecordBatch::Serialize`: the body followed by the `uint32_t` CRC. -/
def RecordBatch.serialize (b : RecordBatch) : List Nat :=
  b.body ++ u32le b.crc32

/-- The per-record scan of `RecordBatch::Deserialize`: starting at `offset`,
parse `n` records by reading each record's length fields, then handing the
exact sub-span to `Record::Deserialize`.  Returns the records and the final
offset. -/
def parseLoop (data : List Nat) : Nat → Nat → Except String (List Record × Nat)
  | offset, 0 => .ok ([], offset)
  | offset, n + 1 =>
    if data.length < offset + 4 then
      .error "Invalid batch data: missing key length" else
    let key_len := readI32 data offset
    if data.length < sizeTAdd (offset + 4) key_len + 4 then
      .error "Invalid batch data: key data exceeds bounds" else
    let off2 := sizeTAdd (offset + 4) key_len
    let value_len := readI32 data off2
    if data.length < sizeTAdd (off2 + 4) value_len + 8 then
      .error "Invalid batch data: value data exceeds bounds" else
    let off4 := sizeTAdd (off2 + 4) value_len + 8
    let record_size := sizeTAdd (sizeTAdd 4 key_len + 4) value_len + 8
    match Record.deserialize ((data.drop (off4 - record_size)).take record_size) with
    | .error e => .error e
    | .ok r =>
      match parseLoop data off4 n with
      | .error e => .error e
      | .ok (rs, fin) => .ok (r :: rs, fin)

/-- `RecordBatch::Deserialize`.  A negative `record_count` makes the C++
`records.reserve(record_count)` request a huge allocation and raise, which the
callers surface as the same deserialization failure; it is modelled as an
error here. -/
def RecordBatch.deserialize (data : List Nat) : Except String RecordBatch :=
  if data.length < 24 then .error "Invalid batch data: too short" else
  let base := readI64 data 0
  let ts := readI64 data 8
  let count := readI32 data 16
  if count < 0 then .error "Invalid batch data: bad record count" else
  match parseLoop data 20 count.toNat with
  | .error e => .error e
  | .ok (records, off) =>
    if data.length < off + 4 then
      .error "Invalid batch data: missing CRC32" else
    let crc := readU32 data off
    let batch := { RecordBatch.build base records ts with crc32 := crc }
    if batch.verifyCrc32 then .ok batch
    else .error "Invalid batch data: CRC32 verification failed"

/-! ## Status codes

`absl::StatusCode` values used by the domain layer, and the
`streamit.v1` protobuf error codes used on the wire.  Error message strings
are dropped from the model; only the codes matter to the statements below. -/

/-- The `absl::StatusCode` constructors the embedded code paths use. -/
inductive StatusCode where
  | notFound
  | failedPrecondition
  | resourceExhausted
  | internalError
  | dataLoss
  | invalidArgument
deriving DecidableEq

/-- `Result<T>` of `streamit/common/result.h`: a value or a status code. -/
inductive Res (α : Type) where
  | ok (a : α)
  | err (c : StatusCode)
deriving DecidableEq

/-- The `streamit.v1` wire error codes reachable from the embedded
Produce/Fetch handlers. -/
inductive ProtoCode where
  | OK
  | INVALID_ARGUMENT
  | INTERNAL
  | IDEMPOTENT_REPLAY
  | OFFSET_OUT_OF_RANGE
  | RESOURCE_EXHAUSTED
deriving DecidableEq

/-! ## Segment (`src/storage/segment.cc`) -/

/-- `streamit::storage::IndexEntry`: `(relative_offset : i64,
file_position : i64, batch_size : i32)`.  `file_position` and `batch_size`
are kept as `Nat` since every value the code stores in them is a
non-negative file position resp. a frame/batch byte count. -/
structure IndexEntry where
  relative_offset : Int
  file_position : Nat
  batch_size : Nat
deriving DecidableEq

/-- `sizeof(SegmentHeader)`: `i64 base_offset | i64 timestamp_ms |
u32 magic | u32 version` = 24 bytes, no padding. -/
def headerSize : Nat := 24

/-- The bytes `Segment::WriteHeader` writes (magic `0xDEADBEEF`,
version 1). -/
def headerBytes (base ts : Int) : List Nat :=
  i64le base ++ i64le ts ++ u32le 0xDEADBEEF ++ u32le 1

/-- The in-memory fields of `streamit::storage::Segment`, together with the
bytes of its `.log` file.  `manifest_next`/`manifest_hwm` are the
`(next_offset, high_watermark)` pair `ManifestManager::UpdateOffsets`
persists.  The `.index` file contents always mirror `index` and are not
duplicated. -/
structure SegmentState where
  base_offset : Int
  max_size_bytes : Nat
  end_offset : Int
  closed : Bool
  log : List Nat
  log_position : Nat
  index : List IndexEntry
  manifest_next : Int
  manifest_hwm : Int
deriving DecidableEq

/-- A newly created segment (the public constructor): header written,
empty index, `end_offset = base_offset`. -/
def freshSegment (base : Int) (maxSize : Nat) (now : Int) : SegmentState :=
  { base_offset := base, max_size_bytes := maxSize, end_offset := base,
    closed := false, log := headerBytes base now,
    log_position := headerSize, index := [],
    manifest_next := 0, manifest_hwm := 0 }

/-- `Segment::IsFull`: `log_position_ >= max_size_bytes_`. -/
def SegmentState.isFull (s : SegmentState) : Bool :=
  s.max_size_bytes ≤ s.log_position

/-- `Segment::Append`.  `now` is the wall-clock timestamp the code stamps
onto the fresh batch.  Returns the result (base offset of the batch or an
error) and the updated segment.  Note the code serializes the batch body
only — no frame header precedes it in the log file. -/
def segAppend (s : SegmentState) (records : List Record) (now : Int) :
    Res Int × SegmentState :=
  if s.closed then (.err .failedPrecondition, s) else
  if records = [] then (.ok s.end_offset, s) else
  let batch := RecordBatch.build s.end_offset records now
  let batch_size := batch.serializedSize
  if s.max_size_bytes < s.log_position + batch_size then
    (.err .resourceExhausted, s) else
  let data := batch.serialize
  let log' := s.log ++ data
  let pos' := s.log_position + data.length
  let entry : IndexEntry :=
    ⟨s.end_offset - s.base_offset, pos' - batch_size, batch_size⟩
  let end' := s.end_offset + records.length
  (.ok s.end_offset,
    { s with log := log', log_position := pos', index := s.index ++ [entry],
             end_offset := end', manifest_next := end',
             manifest_hwm := end' })

/-- `Segment::FindIndexEntry`: `std::lower_bound` on the (sorted) index for
the first entry with `relative_offset ≥ target`, accepted only when its
`relative_offset ≤ target` (so only an exact hit is returned). -/
def findIndexEntry (idx : List IndexEntry) (rel : Int) : Option Nat :=
  match idx.findIdx? (fun e => decide (rel ≤ e.relative_offset)) with
  | none => none
  | some i =>
    match idx[i]? with
    | some e => if e.relative_offset ≤ rel then some i else none
    | none => none

/-- The read loop of `Segment::Read` over the index entries from the found
entry onward.  `cur` is `current_offset` and `bytes` is `bytes_read`.  The
C++ increments `current_offset` by `batch.records.size()` *after* moving the
batch into the result vector, so it reads the moved-from (empty) vector
and `current_offset` never advances; the model mirrors that by leaving
`cur` unchanged. -/
def readLoop (s : SegmentState) (maxBytes : Nat) :
    List IndexEntry → Int → Nat → Res (List RecordBatch)
  | [], _, _ => .ok []
  | e :: rest, cur, bytes =>
    if s.end_offset ≤ cur then .ok [] else
    if maxBytes < bytes + e.batch_size then .ok [] else
    if s.log.length < e.file_position + e.batch_size then .err .dataLoss else
    let data := (s.log.drop e.file_position).take e.batch_size
    match RecordBatch.deserialize data with
    | .error _ => .err .dataLoss
    | .ok b =>
      match readLoop s maxBytes rest cur (bytes + e.batch_size) with
      | .ok bs => .ok (b :: bs)
      | .err c => .err c

/-- `Segment::Read`. -/
def segRead (s : SegmentState) (fromOffset : Int) (maxBytes : Nat) :
    Res (List RecordBatch) :=
  if fromOffset < s.base_offset ∨ s.end_offset ≤ fromOffset then .ok [] else
  match findIndexEntry s.index (fromOffset - s.base_offset) with
  | none => .ok []
  | some i => readLoop s maxBytes (s.index.drop i) fromOffset 0

/-- Modelled from the spec: the `RecordBatchHeader` struct that
`Segment::RecoverTail` parses is declared nowhere under `src/`; the spec
defines the frame header as `(len : u32, crc32 : u32, base_offset : i64)`,
16 bytes little-endian, which is also the layout `sizeof` gives the struct
as used.  `frameHeaderSize` is its size. -/
def frameHeaderSize : Nat := 16

/-- The frame-walking loop of `Segment::RecoverTail`.  Returns the final
`last_valid_pos` and the (possibly extended) index entry list.  Each
accepted frame advances `pos` past the frame; every reject breaks the
loop.  The loop is driven by an iteration budget `fuel` so that it is
structurally recursive; every accepted frame advances `pos` by at least
`frameHeaderSize + 1` bytes, so any budget of at least `fileSize - pos`
makes the budget irrelevant (`scanLoop_fuel` below), and `recoverTail`
passes `fileSize`. -/
def scanLoop (bytes : List Nat) (baseOffset : Int) (fileSize : Nat) :
    Nat → Nat → Nat → List IndexEntry → Nat × List IndexEntry
  | 0, _, lastValid, idx => (lastValid, idx)
  | fuel + 1, pos, lastValid, idx =>
    if fileSize ≤ pos then (lastValid, idx) else
    if fileSize - pos < frameHeaderSize then (lastValid, idx) else
    let len := readU32 bytes pos
    if 1048576 < len ∨ len = 0 then (lastValid, idx) else
    if fileSize < pos + frameHeaderSize + len then (lastValid, idx) else
    let crc := readU32 bytes (pos + 4)
    let payload := (bytes.drop (pos + frameHeaderSize)).take len
    if crc32Compute payload ≠ crc then (lastValid, idx) else
    let newValid := pos + frameHeaderSize + len
    let rel := readI64 bytes (pos + 8) - baseOffset
    let idx' :=
      if idx.any (fun e => e.relative_offset == rel) then idx
      else idx ++ [⟨rel, pos, len⟩]
    scanLoop bytes baseOffset fileSize fuel newValid newValid idx'

/-- `Segment::RecoverTail`: scan the last 64 KiB of the log for valid
frames, truncate after the last valid one, and (only when truncation
happens and the index is non-empty) reset `end_offset` to
`base_offset + last_entry.relative_offset + 1`. -/
def recoverTail (s : SegmentState) : SegmentState :=
  let fileSize := s.log.length
  if fileSize < headerSize then s else
  let scanStart := max headerSize (fileSize - 65536)
  let r := scanLoop s.log s.base_offset fileSize fileSize scanStart headerSize
    s.index
  let lastValid := r.1
  let idx := r.2
  if lastValid < fileSize then
    { s with log := s.log.take lastValid, log_position := lastValid,
             index := idx,
             end_offset :=
               match idx.getLast? with
               | some e => s.base_offset + e.relative_offset + 1
               | none => s.end_offset }
  else { s with index := idx }

/-! ## Association-list maps

`std::unordered_map` is modelled as an association list; `findA` is
`find`, `setA` is `operator[]` followed by assignment (insert-or-update). -/

/-- Map lookup. -/
def findA {α β : Type} [DecidableEq α] : List (α × β) → α → Option β
  | [], _ => none
  | e :: t, k => if e.1 = k then some e.2 else findA t k

/-- Map insert-or-update. -/
def setA {α β : Type} [DecidableEq α] : List (α × β) → α → β → List (α × β)
  | [], k, v => [(k, v)]
  | e :: t, k, v => if e.1 = k then (k, v) :: t else e :: setA t k v

/-! ## LogDir (`src/storage/log_dir.cc`)

The nested `topic → partition → vector<Segment>` maps are flattened to a
single map keyed by the `(topic, partition)` pair. -/

structure LogDirState where
  max_segment_size_bytes : Nat
  segments : List ((String × Int) × List SegmentState)
  high_water_marks : List ((String × Int) × Int)
deriving DecidableEq

/-- `LogDir::GetSegments` (missing topic or partition yields an empty
snapshot). -/
def getSegments (ld : LogDirState) (t : String) (p : Int) :
    List SegmentState :=
  (findA ld.segments (t, p)).getD []

/-- `LogDir::GetEndOffset`: end offset of the last segment, `0` when there
are none. -/
def getEndOffset (ld : LogDirState) (t : String) (p : Int) : Int :=
  match (getSegments ld t p).getLast? with
  | none => 0
  | some s => s.end_offset

/-- `LogDir::GetSegment`: return the active (last) segment if it exists and
is neither full nor closed, otherwise `RollSegment` — append a fresh segment
whose base offset is the current end offset. -/
def getSegmentRoll (ld : LogDirState) (t : String) (p : Int) (now : Int) :
    LogDirState :=
  let segs := getSegments ld t p
  let fresh := freshSegment (getEndOffset ld t p) ld.max_segment_size_bytes now
  let rolled := { ld with segments := setA ld.segments (t, p) (segs ++ [fresh]) }
  match segs.getLast? with
  | some a => if ¬a.isFull ∧ ¬a.closed then ld else rolled
  | none => rolled

/-- The active segment `GetSegment` hands to the caller. -/
def activeSegment (ld : LogDirState) (t : String) (p : Int) :
    Option SegmentState :=
  (getSegments ld t p).getLast?

/-- Write back the (mutated-in-place in C++) active segment. -/
def setActive (ld : LogDirState) (t : String) (p : Int) (s : SegmentState) :
    LogDirState :=
  let segs := (getSegments ld t p).dropLast ++ [s]
  { ld with segments := setA ld.segments (t, p) segs }

/-- `LogDir::GetHighWaterMark` (missing entries read as 0). -/
def getHighWaterMark (ld : LogDirState) (t : String) (p : Int) : Int :=
  (findA ld.high_water_marks (t, p)).getD 0

/-- `LogDir::SetHighWaterMark` (the `high_water_mark` file write is not
modelled). -/
def setHighWaterMark (ld : LogDirState) (t : String) (p : Int) (v : Int) :
    LogDirState :=
  { ld with high_water_marks := setA ld.high_water_marks (t, p) v }

/-! ## Idempotency cache (`src/broker/idempotency_table.cc`, the unbounded
variant the broker service instantiates) -/

/-- `streamit::broker::ProducerKey`. -/
structure ProducerKey where
  producer_id : String
  topic : String
  partition : Int
deriving DecidableEq

/-- `streamit::broker::ProducerSequence`. -/
structure ProducerSequence where
  last_sequence : Int
  last_offset : Int
deriving DecidableEq

/-- The idempotency table's map. -/
abbrev IdemTable := List (ProducerKey × ProducerSequence)

/-- `IdempotencyTable::IsValidSequence`: no entry → `sequence == 0`;
otherwise `sequence > last_sequence`. -/
def isValidSequence (tbl : IdemTable) (k : ProducerKey) (seq : Int) : Bool :=
  match findA tbl k with
  | none => seq == 0
  | some st => decide (st.last_sequence < seq)

/-- `IdempotencyTable::UpdateSequence`. -/
def updateSequence (tbl : IdemTable) (k : ProducerKey) (seq offset : Int) :
    IdemTable :=
  setA tbl k ⟨seq, offset⟩

/-- `IdempotencyTable::GetLastSequence` (−1 when absent). -/
def getLastSequence (tbl : IdemTable) (k : ProducerKey) : Int :=
  match findA tbl k with
  | none => -1
  | some st => st.last_sequence

/-- `IdempotencyTable::GetLastOffset` (−1 when absent). -/
def getLastOffset (tbl : IdemTable) (k : ProducerKey) : Int :=
  match findA tbl k with
  | none => -1
  | some st => st.last_offset

/-! ## Broker service (`src/broker/broker_service.cc`) -/

structure ProduceRequest where
  topic : String
  partition : Int
  records : List Record
  producer_id : String
  sequence : Int

structure FetchRequest where
  topic : String
  partition : Int
  offset : Int
  max_bytes : Int

structure BrokerState where
  logdir : LogDirState
  idem : IdemTable
deriving DecidableEq

/-- Outcome of `BrokerServiceImpl::Produce`: either a non-OK gRPC status
(validation failure) or an OK status carrying the response message's
`error_code` and `base_offset` (unset proto fields default to 0). -/
inductive ProduceOutcome where
  | rpcError (c : StatusCode)
  | resp (error_code : ProtoCode) (base_offset : Int)
deriving DecidableEq

/-- Outcome of `BrokerServiceImpl::Fetch`. -/
inductive FetchOutcome where
  | rpcError (c : StatusCode)
  | resp (error_code : ProtoCode) (batches : List RecordBatch)
      (high_watermark : Int)
deriving DecidableEq

/-- `BrokerServiceImpl::ConvertRecords`: records with `timestamp_ms == 0`
are stamped with the broker's clock. -/
def convertRecords (rs : List Record) (now : Int) : List Record :=
  rs.map (fun r =>
    if r.timestamp_ms = 0 then { r with timestamp_ms := now } else r)

/-- `BrokerServiceImpl::Produce`.  The validation block mirrors
`ValidateProduceRequest`; note that an `Append` failure of any kind is
answered with `INTERNAL` and no retry, and that the idempotency-rejection
response sets only `error_code`/`error_message`. -/
def produce (st : BrokerState) (req : ProduceRequest) (now : Int) :
    ProduceOutcome × BrokerState :=
  if req.topic = "" ∨ req.partition < 0 ∨ req.records = [] then
    (.rpcError .invalidArgument, st) else
  let key : ProducerKey := ⟨req.producer_id, req.topic, req.partition⟩
  if req.producer_id ≠ "" ∧ isValidSequence st.idem key req.sequence = false then
    (.resp .IDEMPOTENT_REPLAY 0, st) else
  let records := convertRecords req.records now
  if records = [] then (.resp .INVALID_ARGUMENT 0, st) else
  let ld1 := getSegmentRoll st.logdir req.topic req.partition now
  match activeSegment ld1 req.topic req.partition with
  | none => (.resp .INTERNAL 0, { st with logdir := ld1 })
  | some seg =>
    match segAppend seg records now with
    | (.err _, seg') =>
      (.resp .INTERNAL 0,
        { st with logdir := setActive ld1 req.topic req.partition seg' })
    | (.ok base, seg') =>
      let idem' :=
        if req.producer_id ≠ "" then
          updateSequence st.idem key req.sequence base
        else st.idem
      let ld2 := setHighWaterMark (setActive ld1 req.topic req.partition seg')
        req.topic req.partition (base + records.length)
      (.resp .OK base, { logdir := ld2, idem := idem' })

/-- `BrokerServiceImpl::Fetch`. -/
def fetch (st : BrokerState) (req : FetchRequest) : FetchOutcome :=
  if req.topic = "" ∨ req.partition < 0 ∨ req.offset < 0 ∨ req.max_bytes ≤ 0 then
    .rpcError .invalidArgument else
  let segs := getSegments st.logdir req.topic req.partition
  if segs = [] then .resp .OK [] 0 else
  match segs.find? (fun s =>
      decide (s.base_offset ≤ req.offset) && decide (req.offset < s.end_offset)) with
  | none =>
    .resp .OFFSET_OUT_OF_RANGE []
      (getEndOffset st.logdir req.topic req.partition)
  | some seg =>
    match segRead seg req.offset req.max_bytes.toNat with
    | .err _ => .resp .INTERNAL [] 0
    | .ok batches =>
      .resp .OK batches (getHighWaterMark st.logdir req.topic req.partition)

/-! ## Consumer group coordinator (`src/coordinator/consumer_group_manager.cc`) -/

/-- `streamit::coordinator::ConsumerMember`.  `last_heartbeat` is a
steady-clock instant in milliseconds. -/
structure ConsumerMember where
  member_id : String
  topics : List String
  last_heartbeat : Int
  active : Bool
deriving DecidableEq

instance : Inhabited ConsumerMember := ⟨⟨"", [], 0, false⟩⟩

/-- `streamit::coordinator::PartitionAssignment`. -/
structure PartitionAssignment where
  topic : String
  partitions : List Int
deriving DecidableEq

/-- `streamit::coordinator::ConsumerGroup`.  The `assignments` map is
modelled as a total function defaulting to `[]`; `committed` keeps the
nested `topic → partition → offset` maps. -/
structure ConsumerGroup where
  group_id : String
  members : List ConsumerMember
  assignments : String → List PartitionAssignment
  committed : List (String × List (Int × Int))
  last_rebalance : Int

/-- `ConsumerGroupManager` state (the mutexed group table plus the
configured session timeout; the heartbeat interval is unused by the
embedded operations). -/
structure CGMState where
  session_timeout_ms : Int
  groups : List (String × ConsumerGroup)

/-- `ConsumerGroupManager::IsMemberActive` at steady-clock instant `now`. -/
def isMemberActive (session now : Int) (m : ConsumerMember) : Bool :=
  m.active && decide (now - m.last_heartbeat < session)

/-- `ConsumerGroupManager::CommitOffset`. -/
def commitOffset (st : CGMState) (g t : String) (p : Int) (v : Int) :
    Res Unit × CGMState :=
  match findA st.groups g with
  | none => (.err .notFound, st)
  | some grp =>
    let inner := (findA grp.committed t).getD []
    let grp' := { grp with committed := setA grp.committed t (setA inner p v) }
    (.ok (), { st with groups := setA st.groups g grp' })

/-- `ConsumerGroupManager::GetCommittedOffset`. -/
def getCommittedOffset (st : CGMState) (g t : String) (p : Int) : Res Int :=
  match findA st.groups g with
  | none => .err .notFound
  | some grp =>
    match findA grp.committed t with
    | none => .ok 0
    | some inner =>
      match findA inner p with
      | none => .ok 0
      | some v => .ok v

/-- The hardcoded per-topic partition list of
`ConsumerGroupManager::AssignPartitions` ("assume 6 partitions per
topic"). -/
def partitionsPerTopic : List Int := [0, 1, 2, 3, 4, 5]

/-- `group.members[member_index % group.members.size()].member_id`. -/
def memberIdAt (members : List ConsumerMember) (idx : Nat) : String :=
  (members.getD (idx % members.length) default).member_id

/-- `assignments[mid].emplace_back(pa)` on the map-as-function. -/
def paUpdate (f : String → List PartitionAssignment) (mid : String)
    (pa : PartitionAssignment) : String → List PartitionAssignment :=
  fun s => if s = mid then f s ++ [pa] else f s

/-- The inner partition loop of `AssignPartitions` for one topic, threading
the assignment map and the global `member_index`. -/
def assignTopic (members : List ConsumerMember) (t : String) :
    List Int → (String → List PartitionAssignment) × Nat →
      (String → List PartitionAssignment) × Nat
  | [], acc => acc
  | p :: ps, (f, idx) =>
    assignTopic members t ps
      (paUpdate f (memberIdAt members idx) ⟨t, [p]⟩, idx + 1)

/-- `ConsumerGroupManager::AssignPartitions` over an explicit topic list. -/
def assignPartitions (members : List ConsumerMember) (topics : List String) :
    String → List PartitionAssignment :=
  (topics.foldl (fun acc t => assignTopic members t partitionsPerTopic acc)
    (fun _ => [], 0)).1

/-- `ConsumerGroupManager::GetGroupTopics`: the union of the members'
subscriptions.  The `unordered_set` is modelled as a first-insertion-ordered
duplicate-free list. -/
def insertTopic (acc : List String) (t : String) : List String :=
  if t ∈ acc then acc else acc ++ [t]

def groupTopics (members : List ConsumerMember) : List String :=
  members.foldl (fun acc m => m.topics.foldl insertTopic acc) []

/-- The members surviving eviction in `RebalanceGroup`. -/
def survivingMembers (session now : Int) (g : ConsumerGroup) :
    List ConsumerMember :=
  g.members.filter (isMemberActive session now)

/-- `ConsumerGroupManager::RebalanceGroup`: evict stale members, clear
assignments if none remain, otherwise install a fresh round-robin
assignment. -/
def rebalanceGroup (st : CGMState) (now : Int) (gid : String) :
    Res Unit × CGMState :=
  match findA st.groups gid with
  | none => (.err .notFound, st)
  | some g =>
    let survivors := g.members.filter (isMemberActive st.session_timeout_ms now)
    if survivors = [] then
      let g' := { g with members := survivors, assignments := fun _ => [] }
      (.ok (), { st with groups := setA st.groups gid g' })
    else
      let f := assignPartitions survivors (groupTopics survivors)
      let g' := { g with members := survivors, assignments := f,
                         last_rebalance := now }
      (.ok (), { st with groups := setA st.groups gid g' })

/-! ## Auxiliary definitions used by the claim statements -/

/-- The accepted subsequence of a stream of produce sequence numbers for one
producer key: each candidate is validated against the cache and, when
accepted, recorded via `UpdateSequence` (exactly the broker's
check-then-update protocol; the offset argument is irrelevant to sequence
validation and passed as 0). -/
def acceptedSeqs (tbl : IdemTable) (k : ProducerKey) : List Int → List Int
  | [] => []
  | s :: rest =>
    if isValidSequence tbl k s then
      s :: acceptedSeqs (updateSequence tbl k s 0) k rest
    else acceptedSeqs tbl k rest

/-- The representation invariants of a C++ `Record`: the byte-string sizes
fit `int32_t` (the cast `Serialize` performs) and the timestamp is an
`int64_t` value. -/
def RecordWF (r : Record) : Prop :=
  r.key.length < 2147483648 ∧ r.value.length < 2147483648 ∧
    -9223372036854775808 ≤ r.timestamp_ms ∧
    r.timestamp_ms < 9223372036854775808

instance (r : Record) : Decidable (RecordWF r) := by
  unfold RecordWF; infer_instance

/-- The representation invariants of a C++ `RecordBatch`: the record count
fits `int32_t`, the offsets and timestamps are `int64_t` values, the
serialized form fits in memory (`ptrdiff_t`), and every record is well
formed. -/
def BatchWF (b : RecordBatch) : Prop :=
  b.records.length < 2147483648 ∧
    -9223372036854775808 ≤ b.base_offset ∧
    b.base_offset < 9223372036854775808 ∧
    -9223372036854775808 ≤ b.timestamp_ms ∧
    b.timestamp_ms < 9223372036854775808 ∧
    b.serializedSize < 9223372036854775808 ∧
    ∀ r ∈ b.records, RecordWF r

instance (b : RecordBatch) : Decidable (BatchWF b) := by
  unfold BatchWF; infer_instance

/-! ## Concrete inputs for the counterexample and failing-input theorems -/

/-- A two-record batch as the broker would frame it. -/
def c1recA : Record := ⟨[1], [2], 7⟩

def c1recB : Record := ⟨[], [3], 9⟩

/-- The failing input for the recovery claim: a fresh segment (base offset
0, 1 MiB cap, header stamped at time 77) to which `Segment::Append` itself
wrote the single two-record batch at time 99.  Its log file is exactly what
the code persists: the 24-byte segment header followed by the serialized
batch body, with no frame header. -/
def c1Segment : SegmentState :=
  (segAppend (freshSegment 0 1048576 77) [c1recA, c1recB] 99).2

/-- Broker state for the roll-and-retry counterexample: one partition
`("t", 0)` whose sole (active) segment is fresh (24 header bytes written)
under a 30-byte segment cap, so the segment is not yet full but no batch
fits. -/
def c3State : BrokerState :=
  { logdir := { max_segment_size_bytes := 30,
                segments := [(("t", 0), [freshSegment 0 30 5])],
                high_water_marks := [] },
    idem := [] }

def c3Req : ProduceRequest :=
  { topic := "t", partition := 0, records := [⟨[1], [2], 7⟩],
    producer_id := "", sequence := 0 }

/-- Producer key and broker state for the idempotent-replay counterexample:
the cache holds `last_sequence = 5, last_offset = 42` for the key, and the
request replays the stale sequence 3. -/
def c4Key : ProducerKey := ⟨"p", "t", 0⟩

def c4State : BrokerState :=
  { logdir := { max_segment_size_bytes := 1024, segments := [],
                high_water_marks := [] },
    idem := [(c4Key, ⟨5, 42⟩)] }

def c4Req : ProduceRequest :=
  { topic := "t", partition := 0, records := [⟨[1], [2], 7⟩],
    producer_id := "p", sequence := 3 }

/-- Broker state for the fetch-at-log-end counterexample: one partition
with a single segment covering offsets `[0, 3)` and high watermark 3. -/
def c5Segment : SegmentState :=
  { base_offset := 0, max_size_bytes := 1024, end_offset := 3,
    closed := false, log := headerBytes 0 5, log_position := 24, index := [],
    manifest_next := 0, manifest_hwm := 0 }

def c5State : BrokerState :=
  { logdir := { max_segment_size_bytes := 1024,
                segments := [(("t", 0), [c5Segment])],
                high_water_marks := [(("t", 0), 3)] },
    idem := [] }

def c5Req : FetchRequest :=
  { topic := "t", partition := 0, offset := 3, max_bytes := 1048576 }

/-- A freshly created consumer group record (as `JoinGroup` builds it,
before any commit). -/
def c8Group : ConsumerGroup :=
  { group_id := "g", members := [], assignments := fun _ => [],
    committed := [], last_rebalance := 0 }

/-- Coordinator state holding the single group `"g"`. -/
def c8State : CGMState := { session_timeout_ms := 30000,
                            groups := [("g", c8Group)] }

/-- Coordinator state with no groups at all. -/
def cgmEmpty : CGMState := { session_timeout_ms := 30000, groups := [] }

/-- Two live members subscribed to topic `"t"` (hearts beaten at instant 0,
rebalance evaluated at instant 0 with a 30 s session timeout). -/
def c6MemberA : ConsumerMember := ⟨"a", ["t"], 0, true⟩

def c6MemberB : ConsumerMember := ⟨"b", ["t"], 0, true⟩

def c6Group : ConsumerGroup :=
  { group_id := "g", members := [c6MemberA, c6MemberB],
    assignments := fun _ => [], committed := [], last_rebalance := 0 }

def c6State : CGMState := { session_timeout_ms := 30000,
                            groups := [("g", c6Group)] }

/-! ## Map lemmas -/

theorem findA_setA_self {α β : Type} [DecidableEq α]
    (l : List (α × β)) (k : α) (v : β) : findA (setA l k v) k = some v := by
  induction l with
  | nil => simp [setA, findA]
  | cons e t ih =>
    by_cases h : e.1 = k
    · simp [setA, findA, h]
    · simp [setA, findA, h, ih]

/-- The iteration budget of `scanLoop` is irrelevant once it is at least
`fileSize - pos`: both runs follow the C++ loop exactly. -/
theorem scanLoop_fuel (bytes : List Nat) (baseOffset : Int) (fileSize : Nat) :
    ∀ f₁ f₂ pos lastValid idx, fileSize - pos ≤ f₁ → fileSize - pos ≤ f₂ →
      scanLoop bytes baseOffset fileSize f₁ pos lastValid idx =
        scanLoop bytes baseOffset fileSize f₂ pos lastValid idx := by
  intro f₁
  induction f₁ with
  | zero =>
    intro f₂ pos lastValid idx h₁ _
    cases f₂ with
    | zero => rfl
    | succ g₂ => simp only [scanLoop, if_pos (by omega : fileSize ≤ pos)]
  | succ g₁ ih =>
    intro f₂ pos lastValid idx h₁ h₂
    cases f₂ with
    | zero => simp only [scanLoop, if_pos (by omega : fileSize ≤ pos)]
    | succ g₂ =>
      simp only [scanLoop]
      split
      · rfl
      · split
        · rfl
        · split
          · rfl
          · split
            · rfl
            · split
              · rfl
              · rename_i hpos _ hlen hsize _
                exact ih g₂ _ _ _ (by omega) (by omega)

/-! ## Claim C9 -/

/-- C9: `Segment::Append` with an empty record list on an open segment is a
successful no-op: it returns `Ok` with the current `end_offset` and leaves
the whole segment state (log bytes, index, offsets, manifest) unchanged. -/
theorem C9_append_empty_noop (s : SegmentState) (now : Int)
    (h : s.closed = false) :
    segAppend s [] now = (.ok s.end_offset, s) := by
  simp [segAppend, h]

theorem C9_append_empty_noop_witness :
    (freshSegment 0 1024 5).closed = false ∧
      segAppend (freshSegment 0 1024 5) [] 7 =
        (.ok (freshSegment 0 1024 5).end_offset, freshSegment 0 1024 5) :=
  ⟨rfl, C9_append_empty_noop (freshSegment 0 1024 5) 7 rfl⟩

/-- Shared helper: an existing group with no committed entry for
`(t, p)` reads back the default 0. -/
theorem getCommitted_missing_entry (st : CGMState) (g t : String) (p : Int)
    (grp : ConsumerGroup) (hg : findA st.groups g = some grp)
    (hn : (findA grp.committed t).bind (fun inner => findA inner p) = none) :
    getCommittedOffset st g t p = .ok 0 := by
  simp only [getCommittedOffset, hg]
  cases ht : findA grp.committed t with
  | none => rfl
  | some inner =>
    have hn' : findA inner p = none := by rw [ht] at hn; exact hn
    simp [hn']

/-! ## Claim C10 -/

/-- C10: `GetCommittedOffset` on an unknown group id returns `NotFound`
(not the default 0); the 0 default is produced only when the group exists
but the `(topic, partition)` pair has no committed entry. -/
theorem C10_get_committed_unknown_group (st : CGMState) (g t : String)
    (p : Int) :
    (findA st.groups g = none →
      getCommittedOffset st g t p = .err .notFound) ∧
    (∀ grp, findA st.groups g = some grp →
      (findA grp.committed t).bind (fun inner => findA inner p) = none →
      getCommittedOffset st g t p = .ok 0) := by
  constructor
  · intro h
    simp [getCommittedOffset, h]
  · intro grp hg hn
    exact getCommitted_missing_entry st g t p grp hg hn

theorem C10_get_committed_unknown_group_witness :
    getCommittedOffset cgmEmpty "g" "t" 0 = .err .notFound ∧
      getCommittedOffset c8State "g" "t" 0 = .ok 0 :=
  ⟨(C10_get_committed_unknown_group cgmEmpty "g" "t" 0).1 rfl,
    (C10_get_committed_unknown_group c8State "g" "t" 0).2 c8Group rfl rfl⟩

/-! ## Claim C8 -/

/-- C8: for an existing group, a committed offset is read back exactly and
a later commit overwrites it; reading a never-committed pair yields 0;
committing to an unknown group yields `NotFound`. -/
theorem C8_commit_roundtrip (st : CGMState) (g t : String) (p v v' : Int) :
    (∀ grp, findA st.groups g = some grp →
      (commitOffset st g t p v).1 = .ok () ∧
      getCommittedOffset (commitOffset st g t p v).2 g t p = .ok v ∧
      getCommittedOffset
        (commitOffset (commitOffset st g t p v).2 g t p v').2 g t p = .ok v') ∧
    (∀ grp, findA st.groups g = some grp →
      (findA grp.committed t).bind (fun inner => findA inner p) = none →
      getCommittedOffset st g t p = .ok 0) ∧
    (findA st.groups g = none →
      (commitOffset st g t p v).1 = .err .notFound) := by
  refine ⟨?_, ?_, ?_⟩
  · intro grp hg
    have hcommit : ∀ (st' : CGMState) (grp' : ConsumerGroup) (w : Int),
        findA st'.groups g = some grp' →
        (commitOffset st' g t p w).1 = .ok () ∧
        getCommittedOffset (commitOffset st' g t p w).2 g t p = .ok w ∧
        (∃ grp'', findA (commitOffset st' g t p w).2.groups g = some grp'') := by
      intro st' grp' w hg'
      refine ⟨by simp [commitOffset, hg'], ?_, ?_⟩
      · simp [commitOffset, hg', getCommittedOffset, findA_setA_self]
      · exact ⟨_, by simp only [commitOffset, hg']; exact findA_setA_self ..⟩
    obtain ⟨h1, h2, grp'', hg''⟩ := hcommit st grp v hg
    exact ⟨h1, h2, (hcommit _ grp'' v' hg'').2.1⟩
  · intro grp hg hn
    exact getCommitted_missing_entry st g t p grp hg hn
  · intro h
    simp [commitOffset, h]

theorem C8_commit_roundtrip_witness :
    ((commitOffset c8State "g" "t" 0 1000).1 = .ok () ∧
      getCommittedOffset (commitOffset c8State "g" "t" 0 1000).2 "g" "t" 0 =
        .ok 1000 ∧
      getCommittedOffset
        (commitOffset (commitOffset c8State "g" "t" 0 1000).2
          "g" "t" 0 2000).2 "g" "t" 0 = .ok 2000) ∧
    getCommittedOffset c8State "g" "t" 1 = .ok 0 ∧
    (commitOffset cgmEmpty "g" "t" 0 1000).1 = .err .notFound :=
  ⟨(C8_commit_roundtrip c8State "g" "t" 0 1000 2000).1 c8Group rfl,
    (C8_commit_roundtrip c8State "g" "t" 1 0 0).2.1 c8Group rfl rfl,
    (C8_commit_roundtrip cgmEmpty "g" "t" 0 1000 2000).2.2 rfl⟩

/-! ## Claim C2 -/

/-- Every accepted sequence value is above the cache entry it was validated
against: strictly above the stored `last_sequence` when an entry exists,
and at least 0 when none did. -/
theorem acceptedSeqs_lt (k : ProducerKey) :
    ∀ (seqs : List Int) (tbl : IdemTable) (x : Int),
      x ∈ acceptedSeqs tbl k seqs →
      ((∀ st, findA tbl k = some st → st.last_sequence < x) ∧
        (findA tbl k = none → 0 ≤ x)) := by
  intro seqs
  induction seqs with
  | nil => intro tbl x hx; simp [acceptedSeqs] at hx
  | cons s rest ih =>
    intro tbl x hx
    by_cases hv : isValidSequence tbl k s = true
    · rw [acceptedSeqs, if_pos hv] at hx
      rcases List.mem_cons.mp hx with hxs | hxtail
      · subst hxs
        unfold isValidSequence at hv
        constructor
        · intro st hst; rw [hst] at hv; simpa using hv
        · intro hnone; rw [hnone] at hv
          have : x = 0 := by simpa using hv
          omega
      · have hbounds := ih (updateSequence tbl k s 0) x hxtail
        have hupd : findA (updateSequence tbl k s 0) k = some ⟨s, 0⟩ :=
          findA_setA_self ..
        have hsx : s < x := by simpa using hbounds.1 ⟨s, 0⟩ hupd
        constructor
        · intro st hst
          unfold isValidSequence at hv
          rw [hst] at hv
          have : st.last_sequence < s := by simpa using hv
          omega
        · intro hnone
          unfold isValidSequence at hv
          rw [hnone] at hv
          have : s = 0 := by simpa using hv
          omega
    · rw [acceptedSeqs, if_neg hv] at hx
      exact ih tbl x hx

/-- The accepted subsequence is strictly increasing, whatever the initial
cache contents. -/
theorem acceptedSeqs_chain (k : ProducerKey) :
    ∀ (seqs : List Int) (tbl : IdemTable),
      (acceptedSeqs tbl k seqs).Chain' (· < ·) := by
  intro seqs
  induction seqs with
  | nil => intro tbl; simp [acceptedSeqs]
  | cons s rest ih =>
    intro tbl
    by_cases hv : isValidSequence tbl k s = true
    · rw [acceptedSeqs, if_pos hv, List.chain'_cons']
      refine ⟨?_, ih _⟩
      intro y hy
      have hymem : y ∈ acceptedSeqs (updateSequence tbl k s 0) k rest :=
        List.mem_of_mem_head? hy
      have := (acceptedSeqs_lt k rest (updateSequence tbl k s 0) y hymem).1
        ⟨s, 0⟩ (findA_setA_self ..)
      simpa using this
    · rw [acceptedSeqs, if_neg hv]
      exact ih tbl

/-- C2: `IsValidSequence(k, seq)` is true iff no entry exists and
`seq == 0`, or an entry exists and `seq` strictly exceeds its stored
`last_sequence`; consequently the accepted sequence values for a fixed
producer key are strictly increasing. -/
theorem C2_is_valid_sequence :
    (∀ (tbl : IdemTable) (k : ProducerKey) (seq : Int),
      isValidSequence tbl k seq = true ↔
        ((findA tbl k = none ∧ seq = 0) ∨
          (∃ st, findA tbl k = some st ∧ st.last_sequence < seq))) ∧
    (∀ (tbl : IdemTable) (k : ProducerKey) (seqs : List Int),
      (acceptedSeqs tbl k seqs).Chain' (· < ·)) := by
  constructor
  · intro tbl k seq
    cases h : findA tbl k with
    | none => simp [isValidSequence, h]
    | some st => simp [isValidSequence, h]
  · intro tbl k seqs
    exact acceptedSeqs_chain k seqs tbl

/-! ## Helper lemmas for the broker service claims -/

/-- `Segment::Append` mutates nothing on a failure (its error returns all
happen before any state is written). -/
theorem segAppend_err (s : SegmentState) (rs : List Record) (now : Int)
    (c : StatusCode) (h : (segAppend s rs now).1 = .err c) :
    (segAppend s rs now).2 = s := by
  by_cases h1 : s.closed = true
  · simp [segAppend, h1]
  · by_cases h2 : rs = []
    · simp [segAppend, h1, h2] at h
    · by_cases h3 : s.max_size_bytes < s.log_position +
        (RecordBatch.build s.end_offset rs now).serializedSize
      · simp [segAppend, h1, h2, h3]
      · simp [segAppend, h1, h2, h3] at h

/-- Writing back the value an assoc-map already holds is the identity. -/
theorem setA_found {α β : Type} [DecidableEq α] (l : List (α × β)) (k : α)
    (v : β) (h : findA l k = some v) : setA l k v = l := by
  induction l with
  | nil => simp [findA] at h
  | cons e t ih =>
    by_cases he : e.1 = k
    · unfold findA at h
      rw [if_pos he] at h
      obtain ⟨k₁, v₁⟩ := e
      cases he
      cases h
      simp [setA]
    · unfold findA at h
      rw [if_neg he] at h
      simp [setA, he, ih h]

/-- A list ending in `x` (per `getLast?`) is its own `dropLast ++ [x]`. -/
theorem dropLast_append_getLast? {α : Type} :
    ∀ (l : List α) (x : α), l.getLast? = some x → l.dropLast ++ [x] = l := by
  intro l
  induction l with
  | nil => intro x h; simp at h
  | cons a t ih =>
    intro x h
    cases t with
    | nil => simp_all
    | cons b u =>
      have ht : (b :: u).getLast? = some x := by
        rw [List.getLast?_cons_cons] at h
        exact h
      simp only [List.dropLast_cons₂, List.cons_append]
      rw [ih x ht]

/-- Writing the active segment back unchanged is the identity on the
log directory. -/
theorem setActive_self (ld : LogDirState) (t : String) (p : Int)
    (seg : SegmentState) (h : activeSegment ld t p = some seg) :
    setActive ld t p seg = ld := by
  unfold activeSegment at h
  cases hf : findA ld.segments (t, p) with
  | none =>
    unfold getSegments at h
    rw [hf] at h
    simp at h
  | some segs =>
    have hsegs : getSegments ld t p = segs := by simp [getSegments, hf]
    rw [hsegs] at h
    have h2 : segs.dropLast ++ [seg] = segs :=
      dropLast_append_getLast? segs seg h
    simp [setActive, hsegs, h2, setA_found _ _ _ hf]

/-- `GetSegment` leaves the directory untouched when the active segment is
present, open and not full. -/
theorem getSegmentRoll_id (ld : LogDirState) (t : String) (p : Int)
    (now : Int) (seg : SegmentState) (h : activeSegment ld t p = some seg)
    (hfull : seg.isFull = false) (hclosed : seg.closed = false) :
    getSegmentRoll ld t p now = ld := by
  unfold activeSegment at h
  simp [getSegmentRoll, h, hfull, hclosed]

/-! ## Claim C3 -/

/-- C3 counterexample: the partition's active segment is fresh (24 bytes
used of a 30-byte cap, hence not "full") but cannot fit the one-record
batch, so `Append` fails with `ResourceExhausted`; the broker neither rolls
nor retries — it answers `INTERNAL` (not `RESOURCE_EXHAUSTED`) and the
broker state, segment list included, is exactly as before. -/
theorem C3_counterexample :
    produce c3State c3Req 9 = (.resp .INTERNAL 0, c3State) ∧
      (segAppend (freshSegment 0 30 5) (convertRecords c3Req.records 9) 9).1 =
        .err .resourceExhausted ∧
      ProtoCode.INTERNAL ≠ ProtoCode.RESOURCE_EXHAUSTED := by
  refine ⟨by decide, by decide, by decide⟩

/-- C3 (amended): when the produce request is valid, passes the idempotency
gate, and the partition's active segment exists and is neither full nor
closed, a failure of the single `Append` attempt — `Full` included — is
surfaced immediately as `INTERNAL` with `base_offset` 0 and the broker
state unchanged: no roll and no retry happen.  (A roll happens only inside
segment resolution, before the append, when the active segment is already
full or closed.) -/
theorem C3_append_failure_internal (st : BrokerState) (req : ProduceRequest)
    (now : Int) (seg : SegmentState) (c : StatusCode)
    (hval : ¬(req.topic = "" ∨ req.partition < 0 ∨ req.records = []))
    (hid : req.producer_id ≠ "" →
      isValidSequence st.idem ⟨req.producer_id, req.topic, req.partition⟩
        req.sequence = true)
    (hseg : activeSegment st.logdir req.topic req.partition = some seg)
    (hfull : seg.isFull = false) (hclosed : seg.closed = false)
    (happ : (segAppend seg (convertRecords req.records now) now).1 = .err c) :
    produce st req now = (.resp .INTERNAL 0, st) := by
  have hrecs : convertRecords req.records now ≠ [] := by
    unfold convertRecords
    simp only [ne_eq, List.map_eq_nil_iff]
    intro hnil
    exact hval (Or.inr (Or.inr hnil))
  have hgate : ¬(req.producer_id ≠ "" ∧
      isValidSequence st.idem ⟨req.producer_id, req.topic, req.partition⟩
        req.sequence = false) := by
    rintro ⟨hne, hfalse⟩
    rw [hid hne] at hfalse
    exact Bool.noConfusion hfalse
  have hroll := getSegmentRoll_id st.logdir req.topic req.partition now seg
    hseg hfull hclosed
  have hpair : segAppend seg (convertRecords req.records now) now =
      (.err c, seg) := by
    have h2 := segAppend_err seg (convertRecords req.records now) now c happ
    exact Prod.ext_iff.mpr ⟨happ, h2⟩
  simp only [produce, if_neg hval, if_neg hgate, if_neg hrecs, hroll, hseg,
    hpair]
  rw [setActive_self st.logdir req.topic req.partition seg hseg]

theorem C3_append_failure_internal_witness :
    produce c3State c3Req 9 = (.resp .INTERNAL 0, c3State) :=
  C3_append_failure_internal c3State c3Req 9 (freshSegment 0 30 5)
    .resourceExhausted (by decide) (by decide) (by decide) (by decide)
    (by decide) (by decide)

/-! ## Claim C4 -/

/-- C4 counterexample: the cache holds `last_offset = 42` for the producer
key, the request replays a stale sequence, and the response carries
`IDEMPOTENT_REPLAY` with `base_offset` still 0 — the cached `last_offset`
42 is never copied into the response. -/
theorem C4_counterexample :
    produce c4State c4Req 9 = (.resp .IDEMPOTENT_REPLAY 0, c4State) ∧
      getLastOffset c4State.idem c4Key = 42 ∧ (0 : Int) ≠ 42 :=
  ⟨by decide, by decide, by decide⟩

/-- C4 (amended): a produce request with a non-empty `producer_id` whose
sequence the idempotency cache rejects is answered with error code
`IDEMPOTENT_REPLAY` and an error message only; the response's
`base_offset` stays at its protobuf default 0 — the cached `last_offset`
for the producer key is not returned — and the broker state is
unchanged. -/
theorem C4_replay_without_cached_offset (st : BrokerState)
    (req : ProduceRequest)
    (now : Int)
    (hval : ¬(req.topic = "" ∨ req.partition < 0 ∨ req.records = []))
    (hpid : req.producer_id ≠ "")
    (hrej : isValidSequence st.idem
      ⟨req.producer_id, req.topic, req.partition⟩ req.sequence = false) :
    produce st req now = (.resp .IDEMPOTENT_REPLAY 0, st) := by
  unfold produce
  rw [if_neg hval, if_pos ⟨hpid, hrej⟩]

theorem C4_replay_without_cached_offset_witness :
    produce c4State c4Req 9 = (.resp .IDEMPOTENT_REPLAY 0, c4State) :=
  C4_replay_without_cached_offset c4State c4Req 9 (by decide) (by decide)
    (by decide)

/-! ## Claim C5 -/

/-- C5 counterexample: one partition, one segment covering `[0, 3)`, high
watermark 3.  A fetch at the log-end offset 3 yields an empty batch list and
`high_watermark = 3` — but with error code `OFFSET_OUT_OF_RANGE`, not
`OK`. -/
theorem C5_counterexample :
    fetch c5State c5Req = .resp .OFFSET_OUT_OF_RANGE [] 3 ∧
      ProtoCode.OFFSET_OUT_OF_RANGE ≠ ProtoCode.OK :=
  ⟨by decide, by decide⟩

/-- C5 (amended): for a partition with at least one segment, a valid fetch
at an offset at or past every segment's end offset — in particular at the
log-end offset itself — returns an empty batch list with error code
`OFFSET_OUT_OF_RANGE` (not `OK`) and `high_watermark` equal to the last
segment's end offset, the log end. -/
theorem C5_fetch_at_log_end (st : BrokerState) (req : FetchRequest)
    (lastSeg : SegmentState)
    (hval : ¬(req.topic = "" ∨ req.partition < 0 ∨ req.offset < 0 ∨
      req.max_bytes ≤ 0))
    (hlast : (getSegments st.logdir req.topic req.partition).getLast? =
      some lastSeg)
    (hoff : req.offset = lastSeg.end_offset)
    (hall : ∀ s ∈ getSegments st.logdir req.topic req.partition,
      s.end_offset ≤ req.offset) :
    fetch st req = .resp .OFFSET_OUT_OF_RANGE [] req.offset := by
  have hne : getSegments st.logdir req.topic req.partition ≠ [] := by
    intro hnil
    rw [hnil] at hlast
    simp at hlast
  have hfind : (getSegments st.logdir req.topic req.partition).find?
      (fun s => decide (s.base_offset ≤ req.offset) &&
        decide (req.offset < s.end_offset)) = none := by
    rw [List.find?_eq_none]
    intro s hs
    have := hall s hs
    simp only [Bool.and_eq_true, decide_eq_true_eq]
    rintro ⟨-, hlt⟩
    omega
  have hend : getEndOffset st.logdir req.topic req.partition = req.offset := by
    unfold getEndOffset
    rw [hlast, hoff]
  simp only [fetch, if_neg hval, if_neg hne, hfind, hend]

theorem C5_fetch_at_log_end_witness :
    fetch c5State c5Req = .resp .OFFSET_OUT_OF_RANGE [] c5Req.offset :=
  C5_fetch_at_log_end c5State c5Req c5Segment (by decide) (by decide)
    (by decide) (by decide)

/-! ## Claim C1 -/

/-- A batch built by the `RecordBatch` constructor always carries the CRC of
its own contents: its CRC field and its recomputed CRC are the same
computation, since the batch body does not involve the CRC field. -/
theorem verifyCrc32_build (base : Int) (rs : List Record) (ts : Int) :
    (RecordBatch.build base rs ts).verifyCrc32 = true := by
  simp [RecordBatch.verifyCrc32, RecordBatch.build, RecordBatch.body]

/-- C1 (code bug, evaluated at the failing input): `c1Segment` is a segment
whose log `Segment::Append` itself produced — the 24-byte header followed by
one unframed two-record batch of 59 bytes (`RecordBatch.build` guarantees
its stored CRC matches its contents, `verifyCrc32_build`), with
`end_offset = 2` and the matching index entry `(0, 24, 59)`.  Running
`RecoverTail` on it (as every reopen does) misparses the batch body as a
frame header, reads `len = 0`, truncates the whole log back to the 24-byte
header, keeps the now-dangling index entry, and sets `end_offset` to
`base_offset + last_entry.relative_offset + 1 = 1`.  After recovery the file
holds no frames at all (so `Σ record_counts = 0` over its contents), yet
`end_offset - base_offset = 1` and the index entry points 59 bytes past the
truncated file — contradicting every claimed post-condition, and destroying
data the code's own append path wrote. -/
theorem C1_recover_tail_failing_input :
    c1Segment.end_offset = 2 ∧
      c1Segment.log.length = 83 ∧
      c1Segment.index = [⟨0, 24, 59⟩] ∧
      c1Segment.log.drop 24 =
        RecordBatch.serialize (RecordBatch.build 0 [c1recA, c1recB] 99) ∧
      (RecordBatch.build 0 [c1recA, c1recB] 99).records.length = 2 ∧
      (recoverTail c1Segment).log.length = 24 ∧
      (recoverTail c1Segment).end_offset = 1 ∧
      (recoverTail c1Segment).index = [⟨0, 24, 59⟩] :=
  ⟨by decide, by decide, by decide, rfl, rfl, by decide, by decide,
    by decide⟩

/-! ## Claim C6: round-robin assignment lemmas -/

theorem paUpdate_mem (f : String → List PartitionAssignment) (mid₀ mid : String)
    (pa x : PartitionAssignment) :
    x ∈ paUpdate f mid₀ pa mid ↔ x ∈ f mid ∨ (mid = mid₀ ∧ x = pa) := by
  unfold paUpdate
  by_cases h : mid = mid₀
  · simp [h]
  · simp [h]

theorem assignTopic_snd (members : List ConsumerMember) (t : String) :
    ∀ (ps : List Int) (f : String → List PartitionAssignment) (idx : Nat),
      (assignTopic members t ps (f, idx)).2 = idx + ps.length := by
  intro ps
  induction ps with
  | nil => intro f idx; simp [assignTopic]
  | cons p rest ih =>
    intro f idx
    rw [assignTopic, ih]
    simp
    omega

theorem assignTopic_mem (members : List ConsumerMember) (t : String) :
    ∀ (ps : List Int) (f : String → List PartitionAssignment) (idx : Nat)
      (mid : String) (x : PartitionAssignment),
      x ∈ (assignTopic members t ps (f, idx)).1 mid ↔
        x ∈ f mid ∨ ∃ j : Fin ps.length,
          x = ⟨t, [ps.get j]⟩ ∧ memberIdAt members (idx + j.1) = mid := by
  intro ps
  induction ps with
  | nil =>
    intro f idx mid x
    simp [assignTopic]
  | cons p rest ih =>
    intro f idx mid x
    rw [assignTopic, ih, paUpdate_mem]
    constructor
    · rintro ((hf | ⟨hmid, hx⟩) | ⟨j, hx, hmid⟩)
      · exact Or.inl hf
      · exact Or.inr ⟨⟨0, by simp⟩, by simpa using hx, by simpa using hmid.symm⟩
      · refine Or.inr ⟨⟨j.1 + 1, by simp [j.2]⟩, by simpa using hx, ?_⟩
        have : idx + (j.1 + 1) = idx + 1 + j.1 := by omega
        rw [this]
        exact hmid
    · rintro (hf | ⟨j, hx, hmid⟩)
      · exact Or.inl (Or.inl hf)
      · match j with
        | ⟨0, h0⟩ =>
          exact Or.inl (Or.inr ⟨by simpa using hmid.symm, by simpa using hx⟩)
        | ⟨j' + 1, hj⟩ =>
          refine Or.inr ⟨⟨j', by simpa using hj⟩, by simpa using hx, ?_⟩
          have : idx + 1 + j' = idx + (j' + 1) := by omega
          rw [this]
          exact hmid

theorem assignFold_pair (members : List ConsumerMember) (t : String)
    (f : String → List PartitionAssignment) (idx : Nat) :
    assignTopic members t partitionsPerTopic (f, idx) =
      ((assignTopic members t partitionsPerTopic (f, idx)).1, idx + 6) :=
  Prod.ext_iff.mpr ⟨rfl, by
    simpa using assignTopic_snd members t partitionsPerTopic f idx⟩

theorem assignFold_mem (members : List ConsumerMember) :
    ∀ (topics : List String) (f : String → List PartitionAssignment)
      (idx : Nat) (mid : String) (x : PartitionAssignment),
      x ∈ (topics.foldl
        (fun acc t => assignTopic members t partitionsPerTopic acc)
        (f, idx)).1 mid ↔
        x ∈ f mid ∨ ∃ ti : Fin topics.length,
          ∃ j : Fin partitionsPerTopic.length,
          x = ⟨topics.get ti, [partitionsPerTopic.get j]⟩ ∧
          memberIdAt members (idx + 6 * ti.1 + j.1) = mid := by
  intro topics
  induction topics with
  | nil =>
    intro f idx mid x
    simp
  | cons t ts ih =>
    intro f idx mid x
    rw [List.foldl_cons, assignFold_pair, ih, assignTopic_mem]
    constructor
    · rintro ((hf | ⟨j, hx, hmid⟩) | ⟨ti, j, hx, hmid⟩)
      · exact Or.inl hf
      · refine Or.inr ⟨⟨0, by simp⟩, j, by simpa using hx, ?_⟩
        simpa using hmid
      · refine Or.inr ⟨⟨ti.1 + 1, by simp [ti.2]⟩, j, by simpa using hx, ?_⟩
        have : idx + 6 * (ti.1 + 1) + j.1 = idx + 6 + 6 * ti.1 + j.1 := by
          omega
        rw [this]
        exact hmid
    · rintro (hf | ⟨ti, j, hx, hmid⟩)
      · exact Or.inl (Or.inl hf)
      · match ti with
        | ⟨0, h0⟩ =>
          refine Or.inl (Or.inr ⟨j, by simpa using hx, ?_⟩)
          simpa using hmid
        | ⟨ti' + 1, hti⟩ =>
          refine Or.inr ⟨⟨ti', by simpa using hti⟩, j, by simpa using hx, ?_⟩
          have : idx + 6 + 6 * ti' + j.1 = idx + 6 * (ti' + 1) + j.1 := by
            omega
          rw [this]
          exact hmid

theorem assignPartitions_mem (members : List ConsumerMember)
    (topics : List String) (mid : String) (x : PartitionAssignment) :
    x ∈ assignPartitions members topics mid ↔
      ∃ ti : Fin topics.length, ∃ j : Fin partitionsPerTopic.length,
        x = ⟨topics.get ti, [partitionsPerTopic.get j]⟩ ∧
        memberIdAt members (6 * ti.1 + j.1) = mid := by
  unfold assignPartitions
  rw [assignFold_mem]
  simp

theorem insertTopic_nodup (acc : List String) (t : String)
    (h : acc.Nodup) : (insertTopic acc t).Nodup := by
  unfold insertTopic
  by_cases hm : t ∈ acc
  · simpa [hm]
  · rw [if_neg hm]
    rw [List.nodup_append]
    exact ⟨h, List.nodup_singleton t, by simpa using hm⟩

theorem foldl_insertTopic_nodup :
    ∀ (ts : List String) (acc : List String), acc.Nodup →
      (ts.foldl insertTopic acc).Nodup := by
  intro ts
  induction ts with
  | nil => intro acc h; simpa
  | cons t rest ih =>
    intro acc h
    exact ih (insertTopic acc t) (insertTopic_nodup acc t h)

theorem groupTopics_nodup (members : List ConsumerMember) :
    (groupTopics members).Nodup := by
  unfold groupTopics
  generalize hacc : ([] : List String) = acc
  have hnd : acc.Nodup := by rw [← hacc]; simp
  clear hacc
  induction members generalizing acc with
  | nil => simpa
  | cons m rest ih =>
    rw [List.foldl_cons]
    exact ih _ (foldl_insertTopic_nodup m.topics acc hnd)

/-- The member the global round-robin index selects is one of the group's
members. -/
theorem memberIdAt_mem (members : List ConsumerMember) (idx : Nat)
    (h : members ≠ []) :
    ∃ m ∈ members, m.member_id = memberIdAt members idx := by
  have hlen : 0 < members.length := List.length_pos.mpr h
  have hlt : idx % members.length < members.length := Nat.mod_lt _ hlen
  refine ⟨members.get ⟨idx % members.length, hlt⟩, List.get_mem .., ?_⟩
  unfold memberIdAt
  rw [List.getD_eq_getElem _ _ hlt]
  simp [List.get_eq_getElem]

/-- Cover and disjointness of the round-robin assignment: with a non-empty
member list with distinct ids and a duplicate-free topic list, every
`(topic, partition)` pair lands in exactly one member's assignment. -/
theorem assignPartitions_cover_disjoint (members : List ConsumerMember)
    (topics : List String) (hm : members ≠ [])
    (hnd : (members.map ConsumerMember.member_id).Nodup)
    (hnt : topics.Nodup) :
    ∀ t ∈ topics, ∀ p ∈ partitionsPerTopic,
      (∃ m ∈ members,
        (⟨t, [p]⟩ : PartitionAssignment) ∈
          assignPartitions members topics m.member_id) ∧
      (∀ m₁ ∈ members, ∀ m₂ ∈ members,
        (⟨t, [p]⟩ : PartitionAssignment) ∈
          assignPartitions members topics m₁.member_id →
        (⟨t, [p]⟩ : PartitionAssignment) ∈
          assignPartitions members topics m₂.member_id →
        m₁ = m₂) := by
  intro t ht p hp
  obtain ⟨ti, hti⟩ := List.get_of_mem ht
  obtain ⟨j, hj⟩ := List.get_of_mem hp
  constructor
  · obtain ⟨m, hmem, hid⟩ :=
      memberIdAt_mem members (6 * ti.1 + j.1) hm
    refine ⟨m, hmem, ?_⟩
    rw [assignPartitions_mem]
    exact ⟨ti, j, by rw [hti, hj], hid.symm⟩
  · intro m₁ hm₁ m₂ hm₂ h₁ h₂
    rw [assignPartitions_mem] at h₁ h₂
    obtain ⟨ti₁, j₁, hx₁, hmid₁⟩ := h₁
    obtain ⟨ti₂, j₂, hx₂, hmid₂⟩ := h₂
    have hxx := hx₁.symm.trans hx₂
    have htopic : topics.get ti₁ = topics.get ti₂ := by
      have := congrArg PartitionAssignment.topic hxx
      simpa using this
    have hpart : partitionsPerTopic.get j₁ = partitionsPerTopic.get j₂ := by
      have := congrArg PartitionAssignment.partitions hxx
      simpa using this
    have hti12 : ti₁ = ti₂ := (List.Nodup.get_inj_iff hnt).mp htopic
    have hj12 : j₁ = j₂ :=
      (List.Nodup.get_inj_iff (by decide : partitionsPerTopic.Nodup)).mp hpart
    have hid : m₁.member_id = m₂.member_id := by
      rw [← hmid₁, ← hmid₂, hti12, hj12]
    exact List.inj_on_of_nodup_map hnd hm₁ hm₂ hid

/-- C6: after `RebalanceGroup` with at least one surviving member (and
distinct member ids, the invariant `JoinGroup` maintains), each of the six
partitions of each subscribed topic appears in the assignment of exactly one
surviving member: some member covers it, and no two distinct members both
hold it. -/
theorem C6_rebalance_disjoint_cover (st : CGMState) (now : Int)
    (gid : String) (g : ConsumerGroup) (hg : findA st.groups gid = some g)
    (hsur : survivingMembers st.session_timeout_ms now g ≠ [])
    (hnd : ((survivingMembers st.session_timeout_ms now g).map
      ConsumerMember.member_id).Nodup) :
    ∃ g', findA ((rebalanceGroup st now gid).2).groups gid = some g' ∧
      ∀ t ∈ groupTopics (survivingMembers st.session_timeout_ms now g),
        ∀ p ∈ partitionsPerTopic,
          (∃ m ∈ survivingMembers st.session_timeout_ms now g,
            (⟨t, [p]⟩ : PartitionAssignment) ∈ g'.assignments m.member_id) ∧
          (∀ m₁ ∈ survivingMembers st.session_timeout_ms now g,
            ∀ m₂ ∈ survivingMembers st.session_timeout_ms now g,
            (⟨t, [p]⟩ : PartitionAssignment) ∈ g'.assignments m₁.member_id →
            (⟨t, [p]⟩ : PartitionAssignment) ∈ g'.assignments m₂.member_id →
            m₁ = m₂) := by
  have hsur' : g.members.filter (isMemberActive st.session_timeout_ms now) ≠
      [] := hsur
  simp only [rebalanceGroup, hg, if_neg hsur']
  refine ⟨_, findA_setA_self .., ?_⟩
  intro t ht p hp
  exact assignPartitions_cover_disjoint
    (survivingMembers st.session_timeout_ms now g)
    (groupTopics (survivingMembers st.session_timeout_ms now g)) hsur hnd
    (groupTopics_nodup _) t ht p hp

theorem C6_rebalance_disjoint_cover_witness :
    findA c6State.groups "g" = some c6Group ∧
      survivingMembers c6State.session_timeout_ms 0 c6Group ≠ [] ∧
      ((survivingMembers c6State.session_timeout_ms 0 c6Group).map
        ConsumerMember.member_id).Nodup ∧
      (∃ g', findA ((rebalanceGroup c6State 0 "g").2).groups "g" = some g' ∧
        ∀ t ∈ groupTopics (survivingMembers c6State.session_timeout_ms 0
          c6Group),
          ∀ p ∈ partitionsPerTopic,
            (∃ m ∈ survivingMembers c6State.session_timeout_ms 0 c6Group,
              (⟨t, [p]⟩ : PartitionAssignment) ∈
                g'.assignments m.member_id) ∧
            (∀ m₁ ∈ survivingMembers c6State.session_timeout_ms 0 c6Group,
              ∀ m₂ ∈ survivingMembers c6State.session_timeout_ms 0 c6Group,
              (⟨t, [p]⟩ : PartitionAssignment) ∈
                g'.assignments m₁.member_id →
              (⟨t, [p]⟩ : PartitionAssignment) ∈
                g'.assignments m₂.member_id →
              m₁ = m₂)) :=
  ⟨rfl, by decide, by decide,
    C6_rebalance_disjoint_cover c6State 0 "g" c6Group rfl (by decide)
      (by decide)⟩

/-! ## Claim C7: little-endian codec lemmas -/

theorem getD_drop (l : List Nat) (p i : Nat) :
    (l.drop p).getD i 0 = l.getD (p + i) 0 := by
  simp [List.getD, List.getElem?_drop]

theorem readU32_drop (l : List Nat) (p : Nat) :
    readU32 l p = readU32 (l.drop p) 0 := by
  simp [readU32, byteAt, getD_drop]

theorem readU64_drop (l : List Nat) (p : Nat) :
    readU64 l p = readU64 (l.drop p) 0 := by
  simp [readU64, byteAt, getD_drop]

theorem readI32_drop (l : List Nat) (p : Nat) :
    readI32 l p = readI32 (l.drop p) 0 := by
  simp [readI32, readU32_drop]

theorem readI64_drop (l : List Nat) (p : Nat) :
    readI64 l p = readI64 (l.drop p) 0 := by
  simp [readI64, readU64_drop]

theorem readU32_u32le (n : Nat) (rest : List Nat) :
    readU32 (u32le n ++ rest) 0 = n % 4294967296 := by
  simp [readU32, u32le, byteAt]
  omega

theorem readU64_u64le (n : Nat) (rest : List Nat) :
    readU64 (u64le n ++ rest) 0 = n % 18446744073709551616 := by
  simp [readU64, u64le, byteAt]
  omega

theorem readI32_i32le_nat (n : Nat) (h : n < 2147483648) (rest : List Nat) :
    readI32 (i32le (n : Int) ++ rest) 0 = n := by
  unfold readI32 i32le
  rw [readU32_u32le]
  unfold toI32
  split <;> omega

theorem readI64_i64le (x : Int) (h1 : -9223372036854775808 ≤ x)
    (h2 : x < 9223372036854775808) (rest : List Nat) :
    readI64 (i64le x ++ rest) 0 = x := by
  unfold readI64 i64le
  rw [readU64_u64le]
  unfold toI64
  split <;> omega

theorem i32le_length (x : Int) : (i32le x).length = 4 := rfl

theorem i64le_length (x : Int) : (i64le x).length = 8 := rfl

theorem drop4_i32le (x : Int) (rest : List Nat) :
    (i32le x ++ rest).drop 4 = rest := rfl

theorem drop8_i64le (x : Int) (rest : List Nat) :
    (i64le x ++ rest).drop 8 = rest := rfl

theorem sizeTAdd_ofNat (a n : Nat) (h : a + n < 18446744073709551616) :
    sizeTAdd a (n : Int) = a + n := by
  unfold sizeTAdd
  omega

theorem serialize_length (r : Record) :
    (Record.serialize r).length = r.serializedSize := by
  simp [Record.serialize, Record.serializedSize, i32le_length, i64le_length]
  omega

/-- Parsing an explicitly laid-out record (`i32 key_len | key |
i32 value_len | value | i64 ts`) followed by arbitrary trailing bytes
recovers the record; `Record::Deserialize` ignores trailing data. -/
theorem record_parse (k v : List Nat) (ts : Int) (rest : List Nat)
    (hk : k.length < 2147483648) (hv : v.length < 2147483648)
    (ht1 : -9223372036854775808 ≤ ts) (ht2 : ts < 9223372036854775808) :
    Record.deserialize
      (i32le (k.length : Int) ++ (k ++ (i32le (v.length : Int) ++
        (v ++ (i64le ts ++ rest))))) = .ok ⟨k, v, ts⟩ := by
  set L := i32le (k.length : Int) ++ (k ++ (i32le (v.length : Int) ++
    (v ++ (i64le ts ++ rest)))) with hL
  have hlen : L.length = 16 + k.length + v.length + rest.length := by
    rw [hL]
    simp [i32le_length, i64le_length]
    omega
  have hkl : readI32 L 0 = (k.length : Int) := by
    rw [hL]; exact readI32_i32le_nat k.length hk _
  have hsz4 : sizeTAdd 4 (k.length : Int) = 4 + k.length :=
    sizeTAdd_ofNat 4 k.length (by omega)
  have hdrop4 : L.drop 4 =
      k ++ (i32le (v.length : Int) ++ (v ++ (i64le ts ++ rest))) := by
    rw [hL]; exact drop4_i32le ..
  have htakek : (L.drop 4).take ((k.length : Int)).toNat = k := by
    rw [hdrop4]
    simp [List.take_left]
  have hdropk : L.drop (4 + k.length) =
      i32le (v.length : Int) ++ (v ++ (i64le ts ++ rest)) := by
    have h1 : L.drop (4 + k.length) = (L.drop 4).drop k.length := by
      rw [List.drop_drop]
    rw [h1, hdrop4, List.drop_left]
  have hvl : readI32 L (4 + k.length) = (v.length : Int) := by
    rw [readI32_drop, hdropk]
    exact readI32_i32le_nat v.length hv _
  have hszv : sizeTAdd (4 + k.length + 4) (v.length : Int) =
      4 + k.length + 4 + v.length :=
    sizeTAdd_ofNat _ _ (by omega)
  have hdropv : L.drop (4 + k.length + 4) = v ++ (i64le ts ++ rest) := by
    have h1 : L.drop (4 + k.length + 4) = (L.drop (4 + k.length)).drop 4 := by
      rw [List.drop_drop]
    rw [h1, hdropk]
    exact drop4_i32le ..
  have htakev : (L.drop (4 + k.length + 4)).take ((v.length : Int)).toNat =
      v := by
    rw [hdropv]
    simp [List.take_left]
  have hdropts : L.drop (4 + k.length + 4 + v.length) = i64le ts ++ rest := by
    have h1 : L.drop (4 + k.length + 4 + v.length) =
        (L.drop (4 + k.length + 4)).drop v.length := by
      rw [List.drop_drop]
    rw [h1, hdropv, List.drop_left]
  have hts : readI64 L (4 + k.length + 4 + v.length) = ts := by
    rw [readI64_drop, hdropts]
    exact readI64_i64le ts ht1 ht2 rest
  simp only [Record.deserialize, hkl, hsz4]
  rw [if_neg (by omega : ¬(L.length < 4))]
  rw [if_neg (by omega : ¬(L.length < 4 + k.length))]
  rw [if_neg (by omega : ¬(L.length < 4 + k.length + 4))]
  rw [hvl, hszv]
  rw [if_neg (by omega : ¬(L.length < 4 + k.length + 4 + v.length))]
  rw [if_neg (by omega : ¬(L.length < 4 + k.length + 4 + v.length + 8))]
  rw [htakek, htakev, hts]

/-- `Record::Deserialize ∘ Record::Serialize` is the identity on well-formed
records, with arbitrary trailing bytes tolerated. -/
theorem record_deserialize_serialize (r : Record) (rest : List Nat)
    (h : RecordWF r) :
    Record.deserialize (r.serialize ++ rest) = .ok r := by
  obtain ⟨hk, hv, ht1, ht2⟩ := h
  have harr : r.serialize ++ rest =
      i32le (r.key.length : Int) ++ (r.key ++ (i32le (r.value.length : Int) ++
        (r.value ++ (i64le r.timestamp_ms ++ rest)))) := by
    simp [Record.serialize]
  rw [harr, record_parse r.key r.value r.timestamp_ms rest hk hv ht1 ht2]

/-- The CRC32 fold state stays below `2^32`. -/
theorem crc32Step_lt (crc : Nat) (h : crc < 4294967296) :
    crc32Step crc < 4294967296 := by
  unfold crc32Step
  split
  · have h1 : crc / 2 < 4294967296 := by omega
    have h2 : (0xEDB88320 : Nat) < 4294967296 := by norm_num
    calc crc / 2 ^^^ 0xEDB88320 < 2 ^ 32 :=
        Nat.xor_lt_two_pow (by norm_num at h1 ⊢; omega) (by norm_num)
      _ = 4294967296 := by norm_num
  · omega

theorem crcTableEntry_lt (i : Nat) (h : i < 4294967296) :
    crcTableEntry i < 4294967296 := by
  unfold crcTableEntry
  have : ∀ n x, x < 4294967296 → crc32Step^[n] x < 4294967296 := by
    intro n
    induction n with
    | zero => intro x hx; simpa
    | succ m ih =>
      intro x hx
      rw [Function.iterate_succ_apply]
      exact ih _ (crc32Step_lt x hx)
  exact this 8 i h

theorem crc32Update_lt (crc b : Nat) (h : crc < 4294967296) :
    crc32Update crc b < 4294967296 := by
  unfold crc32Update
  have h1 : crcTableEntry ((crc ^^^ b) % 256) < 4294967296 :=
    crcTableEntry_lt _ (by omega)
  have h2 : crc / 256 < 4294967296 := by omega
  calc crcTableEntry ((crc ^^^ b) % 256) ^^^ crc / 256 < 2 ^ 32 :=
      Nat.xor_lt_two_pow (by norm_num at h1 ⊢; omega)
        (by norm_num at h2 ⊢; omega)
    _ = 4294967296 := by norm_num

theorem crc32Compute_lt (data : List Nat) :
    crc32Compute data < 4294967296 := by
  unfold crc32Compute
  have hfold : ∀ (l : List Nat) (crc : Nat), crc < 4294967296 →
      l.foldl crc32Update crc < 4294967296 := by
    intro l
    induction l with
    | nil => intro crc h; simpa
    | cons b rest ih =>
      intro crc h
      rw [List.foldl_cons]
      exact ih _ (crc32Update_lt crc b h)
  have h1 := hfold data 0xFFFFFFFF (by norm_num)
  calc data.foldl crc32Update 0xFFFFFFFF ^^^ 0xFFFFFFFF < 2 ^ 32 :=
      Nat.xor_lt_two_pow (by norm_num at h1 ⊢; omega) (by norm_num)
    _ = 4294967296 := by norm_num

set_option maxHeartbeats 1000000 in
/-- The record-scanning loop of `RecordBatch::Deserialize` consumes exactly
the concatenated serializations of the records it was asked for and returns
them, for any buffer small enough for `size_t` arithmetic not to wrap. -/
theorem parseLoop_spec (rs : List Record) :
    ∀ (data : List Nat) (off : Nat) (rest : List Nat),
      (∀ r ∈ rs, RecordWF r) →
      data.drop off = (rs.map Record.serialize).flatten ++ rest →
      off ≤ data.length →
      data.length < 9223372036854775808 →
      parseLoop data off rs.length =
        .ok (rs, off + (rs.map Record.serializedSize).sum) := by
  induction rs with
  | nil =>
    intro data off rest hwf hdrop hoff hbig
    show parseLoop data off 0 = .ok ([], off + 0)
    rw [Nat.add_zero]
    rfl
  | cons r rs ih =>
    intro data off rest hwf hdrop hoff hbig
    obtain ⟨hk, hv, ht1, ht2⟩ := hwf r (List.mem_cons_self ..)
    have hwfr : ∀ x ∈ rs, RecordWF x :=
      fun x hx => hwf x (List.mem_cons_of_mem _ hx)
    have hflat : data.drop off =
        Record.serialize r ++ ((rs.map Record.serialize).flatten ++ rest) := by
      simpa [List.append_assoc] using hdrop
    have hflat2 : data.drop off =
        i32le (r.key.length : Int) ++ (r.key ++
          (i32le (r.value.length : Int) ++ (r.value ++
            (i64le r.timestamp_ms ++
              ((rs.map Record.serialize).flatten ++ rest))))) := by
      rw [hflat]
      simp [Record.serialize]
    have hdlen : (data.drop off).length = data.length - off :=
      List.length_drop ..
    have hlen2 : data.length = off + (4 + r.key.length + 4 + r.value.length +
        8) + ((rs.map Record.serialize).flatten ++ rest).length := by
      have h1 : (data.drop off).length =
          (Record.serialize r).length +
            ((rs.map Record.serialize).flatten ++ rest).length := by
        rw [hflat, List.length_append]
      rw [hdlen, serialize_length] at h1
      unfold Record.serializedSize at h1
      omega
    have hkl : readI32 data off = (r.key.length : Int) := by
      rw [readI32_drop, hflat2]
      exact readI32_i32le_nat _ hk _
    have hsz1 : sizeTAdd (off + 4) (r.key.length : Int) =
        off + 4 + r.key.length :=
      sizeTAdd_ofNat _ _ (by omega)
    have hdropk : data.drop (off + 4 + r.key.length) =
        i32le (r.value.length : Int) ++ (r.value ++ (i64le r.timestamp_ms ++
          ((rs.map Record.serialize).flatten ++ rest))) := by
      have h1 : data.drop (off + 4 + r.key.length) =
          ((data.drop off).drop 4).drop r.key.length := by
        rw [List.drop_drop, List.drop_drop]
        congr 1
        omega
      rw [h1, hflat2, drop4_i32le, List.drop_left]
    have hvl : readI32 data (off + 4 + r.key.length) =
        (r.value.length : Int) := by
      rw [readI32_drop, hdropk]
      exact readI32_i32le_nat _ hv _
    have hsz2 : sizeTAdd (off + 4 + r.key.length + 4) (r.value.length : Int) =
        off + 4 + r.key.length + 4 + r.value.length :=
      sizeTAdd_ofNat _ _ (by omega)
    have hsz3 : sizeTAdd 4 (r.key.length : Int) = 4 + r.key.length :=
      sizeTAdd_ofNat _ _ (by omega)
    have hsz4 : sizeTAdd (4 + r.key.length + 4) (r.value.length : Int) =
        4 + r.key.length + 4 + r.value.length :=
      sizeTAdd_ofNat _ _ (by omega)
    have hstart : off + 4 + r.key.length + 4 + r.value.length + 8 -
        (4 + r.key.length + 4 + r.value.length + 8) = off := by omega
    have hsub : (data.drop off).take
        (4 + r.key.length + 4 + r.value.length + 8) = Record.serialize r := by
      rw [hflat]
      have : (Record.serialize r).length =
          4 + r.key.length + 4 + r.value.length + 8 := by
        rw [serialize_length]
        unfold Record.serializedSize
        omega
      rw [← this, List.take_left]
    have hrec : Record.deserialize ((data.drop off).take
        (4 + r.key.length + 4 + r.value.length + 8)) = .ok r := by
      rw [hsub]
      have := record_deserialize_serialize r [] ⟨hk, hv, ht1, ht2⟩
      simpa using this
    have hdropnext : data.drop (off + 4 + r.key.length + 4 + r.value.length +
        8) = (rs.map Record.serialize).flatten ++ rest := by
      have h1 : data.drop (off + 4 + r.key.length + 4 + r.value.length + 8) =
          (data.drop off).drop (4 + r.key.length + 4 + r.value.length + 8) := by
        rw [List.drop_drop]
        congr 1
        omega
      have h2 : (Record.serialize r).length =
          4 + r.key.length + 4 + r.value.length + 8 := by
        rw [serialize_length]
        unfold Record.serializedSize
        omega
      rw [h1, hflat, ← h2, List.drop_left]
    have hnext := ih data (off + 4 + r.key.length + 4 + r.value.length + 8)
      rest hwfr hdropnext (by omega) hbig
    have hsum : off + 4 + r.key.length + 4 + r.value.length + 8 +
        (rs.map Record.serializedSize).sum =
        off + ((r :: rs).map Record.serializedSize).sum := by
      simp [Record.serializedSize]
      omega
    show parseLoop data off (rs.length + 1) = _
    rw [parseLoop]
    simp only [hkl, hsz1, hvl, hsz2, hsz3, hsz4, hstart, hrec, hnext, hsum,
      if_neg (show ¬(data.length < off + 4) by omega),
      if_neg (show ¬(data.length < off + 4 + r.key.length + 4) by omega),
      if_neg (show
        ¬(data.length < off + 4 + r.key.length + 4 + r.value.length + 8) by
        omega)]

theorem batch_serialize_length (b : RecordBatch) :
    b.serialize.length = b.serializedSize := by
  simp [RecordBatch.serialize, RecordBatch.body, RecordBatch.serializedSize,
    i64le_length, i32le_length, u32le]
  have : ((b.records.map Record.serialize).map List.length).sum =
      (b.records.map Record.serializedSize).sum := by
    rw [List.map_map]
    congr 1
    apply List.map_congr_left
    intro r _
    exact serialize_length r
  rw [← this]
  simp
  omega

set_option maxHeartbeats 1000000 in
/-- `RecordBatch::Deserialize ∘ RecordBatch::Serialize` is the identity on
well-formed batches whose stored CRC matches their contents. -/
theorem batch_deserialize_serialize (b : RecordBatch) (h : BatchWF b)
    (hcrc : b.verifyCrc32 = true) :
    RecordBatch.deserialize b.serialize = .ok b := by
  obtain ⟨hcount, hb1, hb2, ht1, ht2, hsize, hrecs⟩ := h
  have hcrceq : crc32Compute b.body = b.crc32 := by
    simpa [RecordBatch.verifyCrc32] using hcrc
  have hcrclt : b.crc32 < 4294967296 := hcrceq ▸ crc32Compute_lt b.body
  set L := b.serialize with hL
  have hshape : L = i64le b.base_offset ++ (i64le b.timestamp_ms ++
      (i32le (b.records.length : Int) ++
        ((b.records.map Record.serialize).flatten ++ u32le b.crc32))) := by
    rw [hL]
    simp [RecordBatch.serialize, RecordBatch.body]
  have hlenL : L.length = 24 + (b.records.map Record.serializedSize).sum := by
    rw [hL, batch_serialize_length]
    unfold RecordBatch.serializedSize
    omega
  have hbase : readI64 L 0 = b.base_offset := by
    rw [hshape]
    exact readI64_i64le _ hb1 hb2 _
  have hdrop8 : L.drop 8 = i64le b.timestamp_ms ++
      (i32le (b.records.length : Int) ++
        ((b.records.map Record.serialize).flatten ++ u32le b.crc32)) := by
    rw [hshape]
    exact drop8_i64le ..
  have hts : readI64 L 8 = b.timestamp_ms := by
    rw [readI64_drop, hdrop8]
    exact readI64_i64le _ ht1 ht2 _
  have hdrop16 : L.drop 16 = i32le (b.records.length : Int) ++
      ((b.records.map Record.serialize).flatten ++ u32le b.crc32) := by
    have h1 : L.drop 16 = (L.drop 8).drop 8 := by
      rw [List.drop_drop]
    rw [h1, hdrop8]
    exact drop8_i64le ..
  have hcnt : readI32 L 16 = (b.records.length : Int) := by
    rw [readI32_drop, hdrop16]
    exact readI32_i32le_nat _ hcount _
  have hdrop20 : L.drop 20 =
      (b.records.map Record.serialize).flatten ++ u32le b.crc32 := by
    have h1 : L.drop 20 = (L.drop 16).drop 4 := by
      rw [List.drop_drop]
    rw [h1, hdrop16]
    exact drop4_i32le ..
  have hflatlen : ((b.records.map Record.serialize).flatten).length =
      (b.records.map Record.serializedSize).sum := by
    rw [List.length_flatten, List.map_map]
    congr 1
    apply List.map_congr_left
    intro r _
    exact serialize_length r
  have hss : b.serializedSize = 24 + (b.records.map Record.serializedSize).sum := by
    unfold RecordBatch.serializedSize
    omega
  have hparse := parseLoop_spec b.records L 20 (u32le b.crc32) hrecs hdrop20
    (by omega) (by omega)
  have hdropS : L.drop (20 + (b.records.map Record.serializedSize).sum) =
      u32le b.crc32 := by
    have h1 : L.drop (20 + (b.records.map Record.serializedSize).sum) =
        (L.drop 20).drop (b.records.map Record.serializedSize).sum := by
      rw [List.drop_drop]
    rw [h1, hdrop20, ← hflatlen, List.drop_left]
  have hcrcread : readU32 L (20 + (b.records.map Record.serializedSize).sum) =
      b.crc32 := by
    rw [readU32_drop, hdropS]
    have h1 : u32le b.crc32 = u32le b.crc32 ++ [] := by simp
    rw [h1, readU32_u32le]
    omega
  have hbatch : { RecordBatch.build b.base_offset b.records b.timestamp_ms
      with crc32 := b.crc32 } = b := rfl
  have htoNat : ((b.records.length : Int)).toNat = b.records.length := by
    omega
  simp only [RecordBatch.deserialize, hbase, hts, hcnt, htoNat, hparse,
    hcrcread, hbatch, hcrc,
    if_neg (show ¬(L.length < 24) by omega),
    if_neg (show ¬((b.records.length : Int) < 0) by omega),
    if_neg (show ¬(L.length <
      20 + (b.records.map Record.serializedSize).sum + 4) by omega),
    if_pos]

/-! ## Claim C7 -/

/-- C7: serialization round-trip.  Deserializing a serialized well-formed
record yields the record back; deserializing a serialized well-formed batch
whose stored CRC matches its contents succeeds and yields the batch back
(which therefore still passes CRC verification). -/
theorem C7_serialization_roundtrip :
    (∀ r : Record, RecordWF r → Record.deserialize r.serialize = .ok r) ∧
    (∀ b : RecordBatch, BatchWF b → b.verifyCrc32 = true →
      RecordBatch.deserialize b.serialize = .ok b) := by
  constructor
  · intro r h
    have := record_deserialize_serialize r [] h
    simpa using this
  · intro b h hcrc
    exact batch_deserialize_serialize b h hcrc

theorem C7_serialization_roundtrip_witness :
    RecordWF ⟨[1, 2], [3], 5⟩ ∧
      Record.deserialize (Record.serialize ⟨[1, 2], [3], 5⟩) =
        .ok ⟨[1, 2], [3], 5⟩ ∧
      BatchWF (RecordBatch.build 7 [⟨[1, 2], [3], 5⟩] 9) ∧
      (RecordBatch.build 7 [⟨[1, 2], [3], 5⟩] 9).verifyCrc32 = true ∧
      RecordBatch.deserialize
        (RecordBatch.build 7 [⟨[1, 2], [3], 5⟩] 9).serialize =
        .ok (RecordBatch.build 7 [⟨[1, 2], [3], 5⟩] 9) :=
  ⟨by decide, C7_serialization_roundtrip.1 ⟨[1, 2], [3], 5⟩ (by decide),
    by decide, verifyCrc32_build 7 [⟨[1, 2], [3], 5⟩] 9,
    C7_serialization_roundtrip.2 (RecordBatch.build 7 [⟨[1, 2], [3], 5⟩] 9)
      (by decide) (verifyCrc32_build 7 [⟨[1, 2], [3], 5⟩] 9)⟩

end StreamIt
